import Mathlib

/-!
Verification of the modification-tracking (mod-ref) write-barrier subsystem
declared in src/src/hotspot/share/gc/shared/modRefBarrierSet.hpp, together
with its canonical card-table realization as described by the design
document (the card-table sources are not part of this tree, so those
operations are modelled from the spec).  Heap addresses are byte offsets
(Nat); a card table maps card indices to a one-bit dirty flag.
-/

namespace GC

/-- Modelled from the spec: the canonical card size, 512 bytes of heap per
card (the CardTable realization is not under src/). -/
def card_size : Nat := 512

/-- Modelled from the spec: a MemRegion is an immutable half-open
byte-address interval [start, stop).  The field `stop` renders the source
field `end`, which is a reserved word in Lean. -/
structure MemRegion where
  start : Nat
  stop : Nat
  deriving DecidableEq

/-- Address-to-card translation (a constant-time shift in the source
design): the index of the card covering `addr`. -/
def card_index (addr : Nat) : Nat := addr / card_size

/-- Modelled from the spec: the card-table state, one dirty flag per card
index (true means dirty, false means clean). -/
def CardTable : Type := Nat → Bool

/-- Initial card-table state at heap initialization: every card clean. -/
def clean_table : CardTable := fun _ => false

/-- Card `i`, the heap slice [i*card_size, (i+1)*card_size), has a
non-empty intersection with the region `mr`. -/
def card_overlaps (i : Nat) (mr : MemRegion) : Prop :=
  mr.start < mr.stop ∧ i * card_size < mr.stop ∧ mr.start < (i + 1) * card_size

instance (i : Nat) (mr : MemRegion) : Decidable (card_overlaps i mr) :=
  inferInstanceAs (Decidable (_ ∧ _ ∧ _))

/-- Card `i` is fully contained in the region `mr`. -/
def card_covered (i : Nat) (mr : MemRegion) : Prop :=
  mr.start ≤ i * card_size ∧ (i + 1) * card_size ≤ mr.stop

instance (i : Nat) (mr : MemRegion) : Decidable (card_covered i mr) :=
  inferInstanceAs (Decidable (_ ∧ _))

/-- Modelled from the spec: CardTable mark_dirty - set the card covering
`addr` to dirty (a single unconditional byte store in the source design). -/
def mark_dirty (ct : CardTable) (addr : Nat) : CardTable :=
  fun i => if i = card_index addr then true else ct i

/-- Modelled from the spec: CardTable mark_dirty_range - dirty every card
overlapping the region; for a non-empty region these are the cards from the
card of the first byte through the card of the last byte. -/
def mark_dirty_range (ct : CardTable) (mr : MemRegion) : CardTable :=
  fun i =>
    if mr.start < mr.stop ∧ card_index mr.start ≤ i ∧ i ≤ card_index (mr.stop - 1)
    then true else ct i

/-- Modelled from the spec: CardTable clean_range - clean exactly the cards
fully covered by the region: from the first card starting at or after
mr.start through the last card ending at or before mr.stop. -/
def clean_range (ct : CardTable) (mr : MemRegion) : CardTable :=
  fun i =>
    if (mr.start + card_size - 1) / card_size ≤ i ∧ i + 1 ≤ mr.stop / card_size
    then false else ct i

/-- Ascending list of the card indices overlapping a region (empty for a
zero-length region). -/
def cards_overlapping (mr : MemRegion) : List Nat :=
  if mr.start < mr.stop then
    (List.range (card_index (mr.stop - 1) + 1 - card_index mr.start)).map
      (fun k => card_index mr.start + k)
  else []

/-- Modelled from the spec: CardTable dirty_cards_in - enumerate the dirty
cards overlapping the region, in ascending index order. -/
def dirty_cards_in (ct : CardTable) (mr : MemRegion) : List Nat :=
  (cards_overlapping mr).filter (fun i => ct i)

/-- Modelled from the spec: ModRefBarrierSet invalidate (modRefBarrierSet.hpp
lines 43-45) realized by the card table - all refs in `mr` are assumed
modified; delegates to mark_dirty_range. -/
def invalidate (ct : CardTable) (mr : MemRegion) : CardTable :=
  mark_dirty_range ct mr

/-- Modelled from the spec: ModRefBarrierSet clear (modRefBarrierSet.hpp
lines 47-49) realized by the card table; delegates to clean_range. -/
def clear (ct : CardTable) (mr : MemRegion) : CardTable :=
  clean_range ct mr

/-- Modelled from the spec: the mutator write barrier
write_ref_field_post(field_addr) - marks the card covering the stored-into
field dirty. -/
def write_ref_field_post (ct : CardTable) (field_addr : Nat) : CardTable :=
  mark_dirty ct field_addr

/-- Address `addr` lies inside the region `mr`. -/
def region_contains (mr : MemRegion) (addr : Nat) : Prop :=
  mr.start ≤ addr ∧ addr < mr.stop

instance (mr : MemRegion) (addr : Nat) : Decidable (region_contains mr addr) :=
  inferInstanceAs (Decidable (_ ∧ _))

/-- The operations the subsystem exposes: the per-store mutator barrier and
the collector-facing bulk operations. -/
inductive Op where
  | store (addr : Nat)
  | invalidateOp (mr : MemRegion)
  | clearOp (mr : MemRegion)

/-- Heap-level state: the card table plus, as ghost state for expressing the
documented caller contract of clear, the set of addresses into which a
reference has been stored. -/
structure HeapState where
  table : CardTable
  refs : Nat → Bool

/-- One operation applied to the heap state. -/
def step (s : HeapState) : Op → HeapState
  | Op.store a => ⟨write_ref_field_post s.table a, fun x => if x = a then true else s.refs x⟩
  | Op.invalidateOp mr => ⟨mark_dirty_range s.table mr, s.refs⟩
  | Op.clearOp mr => ⟨clean_range s.table mr, s.refs⟩

/-- A sequence of operations applied to the heap state. -/
def run (s : HeapState) : List Op → HeapState
  | [] => s
  | op :: ops => run (step s op) ops

/-- Modelled from the spec: the documented precondition of clear - the
caller guarantees the region currently holds no references. -/
def clear_precondition_ok (s : HeapState) (mr : MemRegion) : Prop :=
  ∀ a, region_contains mr a → s.refs a = false

/-- A trace respects the contract: every clear call satisfies its
documented precondition at the point where it executes. -/
def ok_trace (s : HeapState) : List Op → Prop
  | [] => True
  | op :: ops =>
    (∀ mr, op = Op.clearOp mr → clear_precondition_ok s mr) ∧ ok_trace (step s op) ops

namespace BarrierSet

/-- Modelled from the spec: the enumerated strategy identity (the
BarrierSet Name enumeration; concrete strategies add further tags). -/
inductive Name where
  | NoBarrier
  | ModRef
  | CardTableModRef
  deriving DecidableEq

/-- Modelled from the spec: the FakeRtti identity carried by every barrier
set - a concrete tag together with the set of tags accumulated along the
construction chain (barrierSet.hpp is not under src/). -/
structure FakeRtti where
  concrete_tag : Name
  tags : List Name
  deriving DecidableEq

/-- Tag accumulation performed by constructors (the add_tag call visible in
modRefBarrierSet.hpp line 40). -/
def FakeRtti.add_tag (r : FakeRtti) (t : Name) : FakeRtti :=
  ⟨r.concrete_tag, t :: r.tags⟩

/-- Tag membership query used for static type recovery. -/
def FakeRtti.has_tag (r : FakeRtti) (t : Name) : Bool :=
  decide (t ∈ r.tags)

end BarrierSet

/-- State of a concrete card-table mod-ref barrier set: its identity plus
its card table. -/
structure CardTableModRefBS where
  fake_rtti : BarrierSet.FakeRtti
  table : CardTable

/-- The ModRefBarrierSet constructor (modRefBarrierSet.hpp lines 39-40):
BarrierSet(fake_rtti.add_tag(BarrierSet::ModRef)); the card table is
supplied by the concrete strategy. -/
def mkModRefBarrierSet (fake_rtti : BarrierSet.FakeRtti) (table : CardTable) :
    CardTableModRefBS :=
  ⟨fake_rtti.add_tag BarrierSet.Name.ModRef, table⟩

/-- The invalidate operation on a barrier-set instance. -/
def CardTableModRefBS.invalidate (bs : CardTableModRefBS) (mr : MemRegion) :
    CardTableModRefBS :=
  ⟨bs.fake_rtti, mark_dirty_range bs.table mr⟩

/-- The clear operation on a barrier-set instance. -/
def CardTableModRefBS.clear (bs : CardTableModRefBS) (mr : MemRegion) :
    CardTableModRefBS :=
  ⟨bs.fake_rtti, clean_range bs.table mr⟩

/-- The per-store write barrier on a barrier-set instance. -/
def CardTableModRefBS.write_ref_field_post (bs : CardTableModRefBS)
    (field_addr : Nat) : CardTableModRefBS :=
  ⟨bs.fake_rtti, mark_dirty bs.table field_addr⟩

/-- The GetName specialization for ModRefBarrierSet (modRefBarrierSet.hpp
lines 52-55): static const BarrierSet::Name value = BarrierSet::ModRef. -/
def GetName_ModRefBarrierSet : BarrierSet.Name := BarrierSet.Name.ModRef

/-- Tag-based identification: an instance is a ModRefBarrierSet when its
identity carries the GetName value for ModRefBarrierSet. -/
def is_a_ModRefBarrierSet (bs : CardTableModRefBS) : Bool :=
  bs.fake_rtti.has_tag GetName_ModRefBarrierSet

/-! Helper lemmas: pointwise characterizations of the range operations and
of the dirty-card enumeration. -/

theorem mark_dirty_range_eval (ct : CardTable) (mr : MemRegion) (i : Nat) :
    mark_dirty_range ct mr i = if card_overlaps i mr then true else ct i := by
  have hiff : (mr.start < mr.stop ∧ card_index mr.start ≤ i ∧
      i ≤ card_index (mr.stop - 1)) ↔ card_overlaps i mr := by
    unfold card_overlaps card_index card_size
    omega
  unfold mark_dirty_range
  exact if_congr hiff rfl rfl

theorem clean_range_eval (ct : CardTable) (mr : MemRegion) (i : Nat) :
    clean_range ct mr i = if card_covered i mr then false else ct i := by
  have hiff : ((mr.start + card_size - 1) / card_size ≤ i ∧
      i + 1 ≤ mr.stop / card_size) ↔ card_covered i mr := by
    unfold card_covered card_size
    omega
  unfold clean_range
  exact if_congr hiff rfl rfl

theorem mem_cards_overlapping (i : Nat) (mr : MemRegion) :
    i ∈ cards_overlapping mr ↔ card_overlaps i mr := by
  unfold cards_overlapping
  by_cases h : mr.start < mr.stop
  · rw [if_pos h]
    simp only [List.mem_map, List.mem_range]
    constructor
    · rintro ⟨k, hk, rfl⟩
      unfold card_index card_size at hk
      unfold card_overlaps card_index card_size
      omega
    · intro ho
      unfold card_overlaps card_size at ho
      refine ⟨i - mr.start / 512, ?_, ?_⟩
      · unfold card_index card_size
        omega
      · unfold card_index card_size
        omega
  · rw [if_neg h]
    constructor
    · intro hmem
      exact absurd hmem (List.not_mem_nil i)
    · intro ho
      exact absurd ho.1 h

theorem cards_overlapping_pairwise (mr : MemRegion) :
    List.Pairwise (· < ·) (cards_overlapping mr) := by
  unfold cards_overlapping
  by_cases h : mr.start < mr.stop
  · rw [if_pos h]
    exact List.Pairwise.map _ (fun a b hab => by omega) (List.pairwise_lt_range _)
  · rw [if_neg h]
    exact List.Pairwise.nil

theorem mem_dirty_cards_in (ct : CardTable) (mr : MemRegion) (i : Nat) :
    i ∈ dirty_cards_in ct mr ↔ ct i = true ∧ card_overlaps i mr := by
  unfold dirty_cards_in
  rw [List.mem_filter, mem_cards_overlapping]
  exact And.comm

/-- C1: after invalidate(R), every card overlapping R - including cards only
partially covered by an unaligned R - is marked dirty and is reported by
dirty_cards_in(R), with no gaps. -/
theorem invalidate_dirties_every_overlapping_card
    (ct : CardTable) (mr : MemRegion) (i : Nat) (h : card_overlaps i mr) :
    invalidate ct mr i = true ∧ i ∈ dirty_cards_in (invalidate ct mr) mr := by
  have ht : invalidate ct mr i = true := by
    unfold invalidate
    rw [mark_dirty_range_eval, if_pos h]
  exact ⟨ht, (mem_dirty_cards_in _ _ _).2 ⟨ht, h⟩⟩

/-- C1 witness at the example from the claim: with 512-byte cards,
invalidate([100,600)) dirties card 0 and card 1 even though each is only
partially covered. -/
theorem invalidate_dirties_every_overlapping_card_witness :
    (card_overlaps 0 ⟨100, 600⟩ ∧ card_overlaps 1 ⟨100, 600⟩) ∧
    (invalidate clean_table ⟨100, 600⟩ 0 = true ∧
      0 ∈ dirty_cards_in (invalidate clean_table ⟨100, 600⟩) ⟨100, 600⟩) ∧
    (invalidate clean_table ⟨100, 600⟩ 1 = true ∧
      1 ∈ dirty_cards_in (invalidate clean_table ⟨100, 600⟩) ⟨100, 600⟩) :=
  ⟨⟨by decide, by decide⟩,
   invalidate_dirties_every_overlapping_card clean_table ⟨100, 600⟩ 0 (by decide),
   invalidate_dirties_every_overlapping_card clean_table ⟨100, 600⟩ 1 (by decide)⟩

/-- C3: with 512-byte cards on a 4096-byte heap, invalidate([0,4096)) on an
all-clean table reports exactly the 8 dirty cards 0..7, and a subsequent
clear([512,1024)) leaves exactly the 7 dirty cards 0 and 2..7, with card 1
clean. -/
theorem round_trip_eight_cards :
    dirty_cards_in (invalidate clean_table ⟨0, 4096⟩) ⟨0, 4096⟩ =
      [0, 1, 2, 3, 4, 5, 6, 7] ∧
    dirty_cards_in (clear (invalidate clean_table ⟨0, 4096⟩) ⟨512, 1024⟩) ⟨0, 4096⟩ =
      [0, 2, 3, 4, 5, 6, 7] ∧
    clear (invalidate clean_table ⟨0, 4096⟩) ⟨512, 1024⟩ 1 = false := by
  refine ⟨by decide, by decide, by decide⟩

/-- C5: clear (via clean_range) cleans exactly the cards fully covered by the
region - a fully covered card becomes clean, and every other card (partially
overlapped or disjoint) keeps its previous state. -/
theorem clean_range_exact_frame (ct : CardTable) (mr : MemRegion) (i : Nat) :
    (card_covered i mr → clear ct mr i = false) ∧
    (¬ card_covered i mr → clear ct mr i = ct i) := by
  constructor
  · intro h
    unfold clear
    rw [clean_range_eval, if_pos h]
  · intro h
    unfold clear
    rw [clean_range_eval, if_neg h]

/-- C5 witness: card 1 is fully covered by [512,1024) and is cleaned there,
while card 0 is only partially overlapped by [100,600) and keeps its dirty
state. -/
theorem clean_range_exact_frame_witness :
    (card_covered 1 ⟨512, 1024⟩ ∧
      clear (mark_dirty clean_table 600) ⟨512, 1024⟩ 1 = false) ∧
    (¬ card_covered 0 ⟨100, 600⟩ ∧
      clear (mark_dirty clean_table 0) ⟨100, 600⟩ 0 = mark_dirty clean_table 0 0) :=
  ⟨⟨by decide,
    (clean_range_exact_frame (mark_dirty clean_table 600) ⟨512, 1024⟩ 1).1 (by decide)⟩,
   ⟨by decide,
    (clean_range_exact_frame (mark_dirty clean_table 0) ⟨100, 600⟩ 0).2 (by decide)⟩⟩

/-- C6: a zero-length region passed to invalidate or clear is a no-op - the
whole card-table state is unchanged. -/
theorem zero_length_region_noop (ct : CardTable) (mr : MemRegion)
    (h : mr.start = mr.stop) :
    invalidate ct mr = ct ∧ clear ct mr = ct := by
  constructor
  · funext i
    unfold invalidate mark_dirty_range
    rw [if_neg (by omega)]
  · funext i
    unfold clear clean_range
    rw [if_neg (by unfold card_size; omega)]

/-- C6 witness: the zero-length region [300,300) leaves a table with card 0
dirty unchanged under both operations. -/
theorem zero_length_region_noop_witness :
    (300 : Nat) = 300 ∧
    invalidate (mark_dirty clean_table 0) ⟨300, 300⟩ = mark_dirty clean_table 0 ∧
    clear (mark_dirty clean_table 0) ⟨300, 300⟩ = mark_dirty clean_table 0 :=
  ⟨rfl,
   (zero_length_region_noop (mark_dirty clean_table 0) ⟨300, 300⟩ rfl).1,
   (zero_length_region_noop (mark_dirty clean_table 0) ⟨300, 300⟩ rfl).2⟩

/-- C7: dirty_cards_in(R) returns a finite sequence containing exactly the
indices of dirty cards overlapping R, in strictly ascending index order. -/
theorem dirty_cards_in_exact_ascending (ct : CardTable) (mr : MemRegion) :
    (∀ i, i ∈ dirty_cards_in ct mr ↔ ct i = true ∧ card_overlaps i mr) ∧
    List.Pairwise (· < ·) (dirty_cards_in ct mr) := by
  constructor
  · intro i
    exact mem_dirty_cards_in ct mr i
  · exact (cards_overlapping_pairwise mr).sublist (List.filter_sublist _)

/-- C8: mark_dirty is idempotent and saturating - two marks on addresses
covered by the same card equal a single mark, the card ends dirty, and no
other card is affected. -/
theorem mark_dirty_idempotent_saturating (ct : CardTable) (a b : Nat)
    (h : card_index a = card_index b) :
    mark_dirty (mark_dirty ct a) b = mark_dirty ct a ∧
    mark_dirty ct a (card_index a) = true ∧
    (∀ j, j ≠ card_index a → mark_dirty ct a j = ct j) := by
  refine ⟨?_, ?_, ?_⟩
  · funext i
    unfold mark_dirty
    by_cases hi : i = card_index b
    · rw [if_pos hi, if_pos (hi.trans h.symm)]
    · rw [if_neg hi]
  · unfold mark_dirty
    rw [if_pos rfl]
  · intro j hj
    unfold mark_dirty
    rw [if_neg hj]

/-- C8 witness: addresses 100 and 200 share card 0; marking both equals
marking once, card 0 is dirty, and all other cards are untouched. -/
theorem mark_dirty_idempotent_saturating_witness :
    card_index 100 = card_index 200 ∧
    mark_dirty (mark_dirty clean_table 100) 200 = mark_dirty clean_table 100 ∧
    mark_dirty clean_table 100 (card_index 100) = true ∧
    (∀ j, j ≠ card_index 100 → mark_dirty clean_table 100 j = clean_table j) :=
  ⟨by decide,
   (mark_dirty_idempotent_saturating clean_table 100 200 (by decide)).1,
   (mark_dirty_idempotent_saturating clean_table 100 200 (by decide)).2.1,
   (mark_dirty_idempotent_saturating clean_table 100 200 (by decide)).2.2⟩

theorem refs_dirty_preserved (ops : List Op) (s : HeapState) (a : Nat)
    (hr : s.refs a = true) (hd : s.table (card_index a) = true)
    (hok : ok_trace s ops) :
    (run s ops).refs a = true ∧ (run s ops).table (card_index a) = true := by
  induction ops generalizing s with
  | nil => exact ⟨hr, hd⟩
  | cons op ops ih =>
    obtain ⟨hpre, hok2⟩ := hok
    refine ih (step s op) ?_ ?_ hok2
    · cases op with
      | store b =>
        show (if a = b then true else s.refs a) = true
        by_cases hab : a = b
        · rw [if_pos hab]
        · rw [if_neg hab]
          exact hr
      | invalidateOp mr => exact hr
      | clearOp mr => exact hr
    · cases op with
      | store b =>
        show write_ref_field_post s.table b (card_index a) = true
        unfold write_ref_field_post mark_dirty
        by_cases hab : card_index a = card_index b
        · rw [if_pos hab]
        · rw [if_neg hab]
          exact hd
      | invalidateOp mr =>
        show mark_dirty_range s.table mr (card_index a) = true
        rw [mark_dirty_range_eval]
        by_cases ho : card_overlaps (card_index a) mr
        · rw [if_pos ho]
        · rw [if_neg ho]
          exact hd
      | clearOp mr =>
        have hok3 : clear_precondition_ok s mr := hpre mr rfl
        show clean_range s.table mr (card_index a) = true
        rw [clean_range_eval]
        rw [if_neg ?_]
        · exact hd
        · intro hc
          have hin : region_contains mr a := by
            unfold card_covered card_index card_size at hc
            unfold region_contains
            omega
          have hfalse := hok3 a hin
          rw [hr] at hfalse
          exact absurd hfalse (by decide)

/-- C2: write_ref_field_post(field_addr) marks the card covering field_addr
dirty; consequently, after a store into a region R, dirty_cards_in(R) stays
non-empty along every continuation in which each clear call respects its
documented precondition (so R has not been cleared); dirty cards without a
real mutation remain permitted since no operation requires one. -/
theorem write_barrier_soundness :
    (∀ (ct : CardTable) (a : Nat), write_ref_field_post ct a (card_index a) = true) ∧
    (∀ (s : HeapState) (a : Nat) (mr : MemRegion) (ops : List Op),
      region_contains mr a →
      ok_trace (step s (Op.store a)) ops →
      dirty_cards_in ((run (step s (Op.store a)) ops).table) mr ≠ []) := by
  constructor
  · intro ct a
    unfold write_ref_field_post mark_dirty
    rw [if_pos rfl]
  · intro s a mr ops hin hok
    have h1 : (step s (Op.store a)).refs a = true := by
      show (if a = a then true else s.refs a) = true
      rw [if_pos rfl]
    have h2 : (step s (Op.store a)).table (card_index a) = true := by
      show write_ref_field_post s.table a (card_index a) = true
      unfold write_ref_field_post mark_dirty
      rw [if_pos rfl]
    obtain ⟨hr, hd⟩ := refs_dirty_preserved ops (step s (Op.store a)) a h1 h2 hok
    have hov : card_overlaps (card_index a) mr := by
      unfold region_contains at hin
      unfold card_overlaps card_index card_size
      omega
    exact List.ne_nil_of_mem ((mem_dirty_cards_in _ _ _).2 ⟨hd, hov⟩)

/-- C2 witness: storing into address 100 of the region [0,512) leaves a
non-empty dirty-card enumeration for that region. -/
theorem write_barrier_soundness_witness :
    region_contains ⟨0, 512⟩ 100 ∧
    dirty_cards_in ((run (step ⟨clean_table, fun _ => false⟩ (Op.store 100)) []).table)
      ⟨0, 512⟩ ≠ [] :=
  ⟨by decide,
   write_barrier_soundness.2 ⟨clean_table, fun _ => false⟩ 100 ⟨0, 512⟩ []
     (by decide) trivial⟩

/-- C4 counterexample: with card 0 dirty and the unaligned region [100,600),
clear is idempotent but dirty_cards_in afterwards is [0], not empty - card 0
is only partially covered and so retains its dirty state. -/
theorem clear_unaligned_counterexample :
    ¬ (clear (clear (mark_dirty clean_table 0) ⟨100, 600⟩) ⟨100, 600⟩ =
         clear (mark_dirty clean_table 0) ⟨100, 600⟩ ∧
       dirty_cards_in (clear (mark_dirty clean_table 0) ⟨100, 600⟩) ⟨100, 600⟩ = []) :=
  fun h => absurd h.2 (by decide)

/-- C4 (amended): clear is idempotent on every region and table state; and
for a region aligned to card boundaries, dirty_cards_in(R) is empty after
either one or two applications of clear(R). -/
theorem clear_idempotent_amended (ct : CardTable) (mr : MemRegion) :
    clear (clear ct mr) mr = clear ct mr ∧
    (card_size ∣ mr.start → card_size ∣ mr.stop →
      dirty_cards_in (clear ct mr) mr = []) := by
  constructor
  · funext i
    unfold clear clean_range
    by_cases h : (mr.start + card_size - 1) / card_size ≤ i ∧ i + 1 ≤ mr.stop / card_size
    · simp only [if_pos h]
    · simp only [if_neg h]
  · intro h1 h2
    unfold dirty_cards_in
    rw [List.filter_eq_nil_iff]
    intro i hi
    rw [mem_cards_overlapping] at hi
    have hc : card_covered i mr := by
      unfold card_overlaps card_size at hi
      unfold card_size at h1 h2
      unfold card_covered card_size
      omega
    show ¬ (clear ct mr i = true)
    unfold clear
    rw [clean_range_eval, if_pos hc]
    exact (by decide)

/-- C4 witness: on the aligned region [512,1024) with card 1 dirty, clear is
idempotent and the dirty-card enumeration afterwards is empty. -/
theorem clear_idempotent_amended_witness :
    card_size ∣ (512 : Nat) ∧ card_size ∣ (1024 : Nat) ∧
    clear (clear (mark_dirty clean_table 600) ⟨512, 1024⟩) ⟨512, 1024⟩ =
      clear (mark_dirty clean_table 600) ⟨512, 1024⟩ ∧
    dirty_cards_in (clear (mark_dirty clean_table 600) ⟨512, 1024⟩) ⟨512, 1024⟩ = [] :=
  ⟨by decide, by decide,
   (clear_idempotent_amended (mark_dirty clean_table 600) ⟨512, 1024⟩).1,
   (clear_idempotent_amended (mark_dirty clean_table 600) ⟨512, 1024⟩).2
     (by decide) (by decide)⟩

/-- C9: the strategy tag is assigned once at construction - the constructor
adds the ModRef tag to the instance identity - and none of the operations on
a barrier-set instance changes its identity. -/
theorem tag_assigned_once_never_mutated :
    (∀ (r : BarrierSet.FakeRtti) (t : CardTable),
      (mkModRefBarrierSet r t).fake_rtti.has_tag BarrierSet.Name.ModRef = true) ∧
    (∀ (bs : CardTableModRefBS) (mr : MemRegion) (a : Nat),
      (bs.invalidate mr).fake_rtti = bs.fake_rtti ∧
      (bs.clear mr).fake_rtti = bs.fake_rtti ∧
      (bs.write_ref_field_post a).fake_rtti = bs.fake_rtti) := by
  constructor
  · intro r t
    exact decide_eq_true (List.mem_cons_self _ _)
  · intro bs mr a
    exact ⟨rfl, rfl, rfl⟩

/-- C10: the tag added by the ModRefBarrierSet constructor equals the
GetName value for ModRefBarrierSet, so tag-based identification succeeds on
every constructed instance, whatever identity the derived strategy passed
down. -/
theorem getname_matches_constructor_tag :
    GetName_ModRefBarrierSet = BarrierSet.Name.ModRef ∧
    (∀ (r : BarrierSet.FakeRtti) (t : CardTable),
      is_a_ModRefBarrierSet (mkModRefBarrierSet r t) = true) := by
  constructor
  · rfl
  · intro r t
    show (r.add_tag BarrierSet.Name.ModRef).has_tag GetName_ModRefBarrierSet = true
    unfold GetName_ModRefBarrierSet BarrierSet.FakeRtti.has_tag BarrierSet.FakeRtti.add_tag
    exact decide_eq_true (List.mem_cons_self _ _)

end GC
